import Mathlib

/-!
Shallow embedding of the `MessageAnalyzer` class of this repository
(the newer, pending-second-accumulator variant, which the design notes
designate as authoritative; the legacy variant is noted where a claim
depends on it).  JS numbers are modelled as `Int`: all arithmetic the
class performs on counts, statistics and millisecond timestamps is
integer arithmetic, and `Math.floor` of a quotient is modelled by
`Int.fdiv` (floor division).  The circular buffer (npm
`circular-buffer`) is modelled as a list with the most recent cell at
the head: `enq` is cons-then-truncate-to-capacity, `get i` indexes
from the head, `size` and `capacity` are `length` and `bufferSize`.
The caller-overridable collaborator hooks (`calculateMsgStatistic`,
`sendMsg`, `changeStatus`) are modelled by a statistic-function
parameter and by instrumentation traces recording every invocation
(most recent first) since the most recent `reset`.  The idle timer is
modelled by an `Option Int` holding the armed delay in milliseconds.
-/

namespace MsgStats

/-- One finalized per-second tally stored in the circular buffer
(`{msgCount, msgStatistic}` objects enqueued by `_analyse`). -/
structure Cell where
  msgCount : Int
  msgStatistic : Int
  deriving DecidableEq, Repr

/-- The instance fields of `MessageAnalyzer` (newer variant), plus
instrumentation traces for the three collaborator hooks and for the
cells ever enqueued since the last `reset`.  `M` is the type of
input messages. -/
structure St (M : Type) where
  bufferSize : Nat
  estimationStartup : Bool
  ignoreStartup : Bool
  paused : Bool
  circularBuffer : List Cell
  newMsgCount : Int
  newMsgStatistic : Int
  prevStartup : Bool
  prevTotalMsgCount : Int
  prevMsgStatisticInBuffer : Int
  msgCountInBuffer : Int
  msgStatisticInBuffer : Int
  startTime : Option Int
  endTime : Option Int
  timer : Option Int
  statCalls : List M
  sendCalls : List (Int × Int)
  statusCalls : List (Int × Int × Bool)
  enqTrace : List Cell
  deriving Repr

variable {M : Type}

/-- Sum of `msgCount` over a list of cells. -/
def cellCountSum (l : List Cell) : Int :=
  (l.map Cell.msgCount).sum

/-- Sum of `msgStatistic` over a list of cells. -/
def cellStatSum (l : List Cell) : Int :=
  (l.map Cell.msgStatistic).sum

/-- The tail cell about to be evicted: `circularBuffer.get(bufferSize-1)`
when `circularBuffer.size() >= bufferSize`, else a zero cell. -/
def evictedCell (s : St M) : Cell :=
  if s.bufferSize ≤ s.circularBuffer.length then
    s.circularBuffer.getD (s.bufferSize - 1) ⟨0, 0⟩
  else ⟨0, 0⟩

/-- `msgCountInBuffer + newMsgCount - originalCellContent.msgCount`. -/
def stepCountSum (s : St M) : Int :=
  s.msgCountInBuffer + s.newMsgCount - (evictedCell s).msgCount

/-- `msgStatisticInBuffer + newMsgStatistic - originalCellContent.msgStatistic`. -/
def stepStatSum (s : St M) : Int :=
  s.msgStatisticInBuffer + s.newMsgStatistic - (evictedCell s).msgStatistic

/-- The circular buffer after `enq({newMsgCount, newMsgStatistic})`:
cons at the head, truncated to capacity (the tail is evicted when the
buffer is full). -/
def stepBuffer (s : St M) : List Cell :=
  (Cell.mk s.newMsgCount s.newMsgStatistic :: s.circularBuffer).take s.bufferSize

/-- `isStartup`: the buffer size after the push is below capacity. -/
def stepIsStartup (s : St M) : Bool :=
  decide ((stepBuffer s).length < s.bufferSize)

/-- The reported `(count, statistic, isStartup)` triple of one loop
iteration: linearly extrapolated with `Math.floor(x * capacity / size)`
during startup when `estimationStartup` is set and the buffer is
non-empty, otherwise the raw running sums. -/
def stepReported (s : St M) : Int × Int × Bool :=
  if (stepBuffer s).length < s.bufferSize then
    if s.estimationStartup = true ∧ 0 < (stepBuffer s).length then
      ((stepCountSum s * (s.bufferSize : Int)).fdiv ((stepBuffer s).length : Int),
       (stepStatSum s * (s.bufferSize : Int)).fdiv ((stepBuffer s).length : Int),
       true)
    else
      (stepCountSum s, stepStatSum s, true)
  else
    (stepCountSum s, stepStatSum s, false)

/-- The guard of the `changeStatus` call: it compares the memo fields
against the *raw* updated running sums (`this.msgCountInBuffer`,
`this.msgStatisticInBuffer`) and the iteration's `isStartup`. -/
def stepFire (s : St M) : Bool :=
  decide (¬(s.prevTotalMsgCount = stepCountSum s) ∨
          ¬(s.prevMsgStatisticInBuffer = stepStatSum s) ∨
          ¬(s.prevStartup = stepIsStartup s))

/-- One iteration of the catch-up loop of `_analyse` (lines 171-233 of
the newer variant): evict/push, update the running sums incrementally,
possibly notify `changeStatus` (storing the *reported* values in the
memo fields) and `sendMsg`, zero the pending second, advance
`startTime` to the corrected end time, and record `prevStartup`. -/
def analyseStep (endT : Int) (s : St M) : St M :=
  { s with
    msgCountInBuffer := stepCountSum s
    msgStatisticInBuffer := stepStatSum s
    circularBuffer := stepBuffer s
    statusCalls :=
      if stepFire s then stepReported s :: s.statusCalls else s.statusCalls
    prevTotalMsgCount :=
      if stepFire s then (stepReported s).1 else s.prevTotalMsgCount
    prevMsgStatisticInBuffer :=
      if stepFire s then (stepReported s).2.1 else s.prevMsgStatisticInBuffer
    sendCalls :=
      if s.ignoreStartup = false ∨ stepIsStartup s = false then
        ((stepReported s).1, (stepReported s).2.1) :: s.sendCalls
      else s.sendCalls
    newMsgCount := 0
    newMsgStatistic := 0
    startTime := some endT
    prevStartup := stepIsStartup s
    enqTrace := Cell.mk s.newMsgCount s.newMsgStatistic :: s.enqTrace }

/-- Whole elapsed seconds between `startTime` (or `now` when the window
is not yet open) and `now`: `Math.floor((endTime - startTime) / 1000)`. -/
def elapsedSeconds (now : Int) (s : St M) : Int :=
  Int.fdiv (now - s.startTime.getD now) 1000

/-- `_analyse(msg)`: open the window if needed, set `endTime = now`,
compute whole elapsed seconds and the sub-second remainder, correct
`endTime` back to the whole-second boundary, run the catch-up loop once
per elapsed second, then fold the new message (if any) into the pending
second and record the `calculateMsgStatistic` invocation. -/
def analyse (statFn : M → Int) (now : Int) (msg : Option M) (s : St M) : St M :=
  let startT : Int := s.startTime.getD now
  let seconds : Int := elapsedSeconds now s
  let remainder : Int := (now - startT) - 1000 * seconds
  let endT : Int := now - remainder
  let s2 : St M :=
    (analyseStep endT)^[seconds.toNat]
      { s with startTime := some startT, endTime := some endT }
  match msg with
  | none => s2
  | some m =>
      { s2 with
        newMsgCount := s2.newMsgCount + 1
        newMsgStatistic := s2.newMsgStatistic + statFn m
        statCalls := m :: s2.statCalls }

/-- The delay the newer variant passes to `setInterval` when re-arming
the idle timer in `process` (milliseconds). -/
def idleDelayMs : Int := 60000

/-- `process(msg)`: when not paused, cancel any armed idle timer, run
`_analyse(msg)`, and re-arm the idle timer with delay `idleDelayMs`. -/
def process (statFn : M → Int) (now : Int) (msg : Option M) (s : St M) : St M :=
  if s.paused then s
  else { analyse statFn now msg s with timer := some idleDelayMs }

/-- The idle-timer callback firing: `_analyse(null)`.  The interval
timer stays armed (`setInterval` repeats). -/
def tick (statFn : M → Int) (now : Int) (s : St M) : St M :=
  analyse statFn now none s

/-- `pause()`: only when not already paused, set the flag and cancel
the idle timer. -/
def pause (s : St M) : St M :=
  if s.paused then s else { s with paused := true, timer := none }

/-- `resume()`: only when paused, clear the flag, re-anchor `startTime`
to now, and call `process(null)` (which re-arms the idle timer). -/
def resume (statFn : M → Int) (tResume tProcess : Int) (s : St M) : St M :=
  if s.paused then
    process statFn tProcess none
      { s with paused := false, startTime := some tResume }
  else s

/-- `reset()`: fresh circular buffer, zeroed pending-second counters,
zeroed memo fields, zeroed running sums, nulled time cursors.  The
`paused` flag is deliberately left untouched (the commented-out line in
the source).  The instrumentation traces restart here as well: they
record invocations since the most recent reset. -/
def resetState (s : St M) : St M :=
  { s with
    circularBuffer := []
    newMsgCount := 0
    newMsgStatistic := 0
    prevStartup := false
    prevTotalMsgCount := 0
    prevMsgStatisticInBuffer := 0
    msgCountInBuffer := 0
    msgStatisticInBuffer := 0
    startTime := none
    endTime := none
    statCalls := []
    sendCalls := []
    statusCalls := []
    enqTrace := [] }

/-- `stop()`: cancel the idle timer if armed, then `reset()`
unconditionally. -/
def stop (s : St M) : St M :=
  resetState { s with timer := none }

/-- The state right after the constructor ran (fields assigned, then
`reset()`); `bufferSize` is the computed capacity, the three flags come
from the configuration. -/
def initState (M : Type) (bufferSize : Nat) (est ign paused : Bool) : St M where
  bufferSize := bufferSize
  estimationStartup := est
  ignoreStartup := ign
  paused := paused
  circularBuffer := []
  newMsgCount := 0
  newMsgStatistic := 0
  prevStartup := false
  prevTotalMsgCount := 0
  prevMsgStatisticInBuffer := 0
  msgCountInBuffer := 0
  msgStatisticInBuffer := 0
  startTime := none
  endTime := none
  timer := none
  statCalls := []
  sendCalls := []
  statusCalls := []
  enqTrace := []

/-- States reachable from construction by any sequence of
`process`/`record` calls, idle-timer ticks (only when the timer is
armed), `pause`, `resume`, `stop` and `reset` calls, at arbitrary
clock readings. -/
inductive Reachable (statFn : M → Int) (cap : Nat) (est ign : Bool) : St M → Prop where
  | init (paused : Bool) :
      Reachable statFn cap est ign (initState M cap est ign paused)
  | procStep {s : St M} (now : Int) (msg : Option M) :
      Reachable statFn cap est ign s →
      Reachable statFn cap est ign (process statFn now msg s)
  | tickStep {s : St M} (now : Int) :
      Reachable statFn cap est ign s → s.timer.isSome →
      Reachable statFn cap est ign (tick statFn now s)
  | pauseStep {s : St M} :
      Reachable statFn cap est ign s →
      Reachable statFn cap est ign (pause s)
  | resumeStep {s : St M} (tResume tProcess : Int) :
      Reachable statFn cap est ign s →
      Reachable statFn cap est ign (resume statFn tResume tProcess s)
  | stopStep {s : St M} :
      Reachable statFn cap est ign s →
      Reachable statFn cap est ign (stop s)
  | resetStep {s : St M} :
      Reachable statFn cap est ign s →
      Reachable statFn cap est ign (resetState s)

/-- The running-sum / capacity invariant of the circular buffer. -/
def SumInv (s : St M) : Prop :=
  s.msgCountInBuffer = cellCountSum s.circularBuffer ∧
  s.msgStatisticInBuffer = cellStatSum s.circularBuffer ∧
  s.circularBuffer.length ≤ s.bufferSize ∧
  1 ≤ s.bufferSize

/-! Constructor configuration arithmetic.  A JS configuration value is
either absent (`undefined`), a number (restricted to integers, the only
values the tests and callers use), or a string. -/

/-- A JS value as it can appear in `config.interval`. -/
inductive ConfigVal where
  | undef
  | num (n : Int)
  | str (s : String)
  deriving DecidableEq, Repr

/-- JS truthiness of a configuration value (`undefined`, `0` and `""`
are falsy). -/
def ConfigVal.truthy : ConfigVal → Bool
  | .undef => false
  | .num n => decide (n ≠ 0)
  | .str s => decide (s ≠ "")

/-- JS `parseInt` on a string: skip leading whitespace, optional sign,
then the longest prefix of decimal digits; `NaN` (modelled as `none`)
when no digit follows. -/
def parseIntStr (s : String) : Option Int :=
  let cs := s.data.dropWhile Char.isWhitespace
  let signed : Int × List Char :=
    match cs with
    | '-' :: rest => (-1, rest)
    | '+' :: rest => (1, rest)
    | _ => (1, cs)
  let digits := signed.2.takeWhile Char.isDigit
  if digits.isEmpty then none
  else some (signed.1 *
    digits.foldl (fun acc c => acc * 10 + ((c.toNat - 48 : Nat) : Int)) 0)

/-- JS `parseInt` on a configuration value (`parseInt(undefined)` is
`NaN`; a number is stringified and re-parsed, which is the identity on
integers). -/
def parseIntJS : ConfigVal → Option Int
  | .undef => none
  | .num n => some n
  | .str s => parseIntStr s

/-- `this.interval`: `1` when `config.interval` is falsy, otherwise
`parseInt(config.interval)` (with `none` standing for `NaN`). -/
def intervalField (iv : ConfigVal) : Option Int :=
  if iv.truthy then parseIntJS iv else some 1

/-- The `switch (config.frequency)` table: seconds per unit, with a
default of `1` for any other value. -/
def frequencyBase (frequency : String) : Int :=
  if frequency = "sec" then 1
  else if frequency = "min" then 60
  else if frequency = "hour" then 3600
  else 1

/-- `this.bufferSize` as computed by the constructor:
`frequencyBase * interval` (with `none` standing for `NaN`). -/
def bufferSizeOf (frequency : String) (iv : ConfigVal) : Option Int :=
  (intervalField iv).map (fun i => frequencyBase frequency * i)

/-- A trivial statistic function used by concrete evaluations. -/
def statFnZero : Unit → Int := fun _ => 0

/-- A concrete state with an open window at time 0 and an empty pending
second, used to evaluate the catch-up-equivalence theorem. -/
def openWindowState : St Unit :=
  { initState Unit 2 false false false with startTime := some 0 }

/-- A concrete state about to close a startup second with one pending
message, used to evaluate the startup-estimation theorem. -/
def startupStepState : St Unit :=
  { initState Unit 2 true false false with newMsgCount := 1, newMsgStatistic := 4 }

/-- A concrete state with a full buffer, used to evaluate the
non-startup branch of the reporting rule. -/
def fullStepState : St Unit :=
  { initState Unit 1 true false false with
    circularBuffer := [⟨2, 3⟩], msgCountInBuffer := 2, msgStatisticInBuffer := 3 }

/-- The memo triple the `changeStatus` guard compares against. -/
def statusMemoTriple (s : St M) : Int × Int × Bool :=
  (s.prevTotalMsgCount, s.prevMsgStatisticInBuffer, s.prevStartup)

/-- The de-duplication invariant of the status trace: no two
consecutive notifications are equal, and the memo triple equals the
most recent notification (or `(0, 0, false)` when none was issued since
the last reset). -/
def StatusInv (s : St M) : Prop :=
  List.Chain' (fun a b => a ≠ b) s.statusCalls ∧
  statusMemoTriple s = s.statusCalls.headD (0, 0, false)

/-! ### Projection helper lemmas -/

theorem analyseStep_paused (e : Int) (s : St M) :
    (analyseStep e s).paused = s.paused := rfl

theorem analyseStep_timer (e : Int) (s : St M) :
    (analyseStep e s).timer = s.timer := rfl

theorem analyseStep_statCalls (e : Int) (s : St M) :
    (analyseStep e s).statCalls = s.statCalls := rfl

theorem analyseStep_startTime (e : Int) (s : St M) :
    (analyseStep e s).startTime = some e := rfl

theorem analyseStep_newMsgCount (e : Int) (s : St M) :
    (analyseStep e s).newMsgCount = 0 := rfl

theorem analyseStep_newMsgStatistic (e : Int) (s : St M) :
    (analyseStep e s).newMsgStatistic = 0 := rfl

theorem analyseStep_bufferSize (e : Int) (s : St M) :
    (analyseStep e s).bufferSize = s.bufferSize := rfl

theorem iter_paused (e : Int) (n : Nat) (s : St M) :
    ((analyseStep e)^[n] s).paused = s.paused := by
  induction n generalizing s with
  | zero => rfl
  | succ n ih => rw [Function.iterate_succ_apply, ih, analyseStep_paused]

theorem iter_timer (e : Int) (n : Nat) (s : St M) :
    ((analyseStep e)^[n] s).timer = s.timer := by
  induction n generalizing s with
  | zero => rfl
  | succ n ih => rw [Function.iterate_succ_apply, ih, analyseStep_timer]

theorem iter_statCalls (e : Int) (n : Nat) (s : St M) :
    ((analyseStep e)^[n] s).statCalls = s.statCalls := by
  induction n generalizing s with
  | zero => rfl
  | succ n ih => rw [Function.iterate_succ_apply, ih, analyseStep_statCalls]

theorem iter_bufferSize (e : Int) (n : Nat) (s : St M) :
    ((analyseStep e)^[n] s).bufferSize = s.bufferSize := by
  induction n generalizing s with
  | zero => rfl
  | succ n ih => rw [Function.iterate_succ_apply, ih, analyseStep_bufferSize]

theorem analyse_paused (statFn : M → Int) (now : Int) (msg : Option M) (s : St M) :
    (analyse statFn now msg s).paused = s.paused := by
  cases msg <;> simp [analyse, iter_paused]

theorem process_paused (statFn : M → Int) (now : Int) (msg : Option M) (s : St M) :
    (process statFn now msg s).paused = s.paused := by
  by_cases h : s.paused <;> simp [process, h, analyse_paused]

/-! ### C7: stop cancels the timer and fully reinitializes -/

/-- C7: for every state, paused or not, `stop()` cancels any armed idle
timer and reinitializes the estimator unconditionally via `reset()`:
the circular buffer is emptied, the running sums and the pending-second
accumulators are zeroed, and the time cursors are nulled. -/
theorem stop_reinitializes_unconditionally (s : St M) :
    stop s = resetState { s with timer := none } ∧
    (stop s).timer = none ∧
    (stop s).circularBuffer = [] ∧
    (stop s).msgCountInBuffer = 0 ∧
    (stop s).msgStatisticInBuffer = 0 ∧
    (stop s).newMsgCount = 0 ∧
    (stop s).newMsgStatistic = 0 ∧
    (stop s).startTime = none ∧
    (stop s).endTime = none :=
  ⟨rfl, rfl, rfl, rfl, rfl, rfl, rfl, rfl, rfl⟩

theorem resume_of_not_paused (statFn : M → Int) (a b : Int) (s : St M)
    (h : s.paused = false) : resume statFn a b s = s := by
  simp [resume, h]

/-! ### C9: pause and resume are idempotent -/

/-- C9: calling `pause()` twice in a row yields the same state as
calling it once, and calling `resume()` twice in a row (at any clock
readings) yields the same state as calling it once: the second call of
either is a no-op because the `paused` flag already has the target
value. -/
theorem pause_resume_idempotent (statFn : M → Int) (s : St M)
    (a b a' b' : Int) :
    pause (pause s) = pause s ∧
    resume statFn a' b' (resume statFn a b s) = resume statFn a b s := by
  constructor
  · by_cases h : s.paused
    · simp [pause, h]
    · simp [pause, h]
  · by_cases h : s.paused
    · have h2 : (resume statFn a b s).paused = false := by
        simp [resume, h, process_paused]
      exact resume_of_not_paused statFn a' b' _ h2
    · simp [resume, h]

/-! ### C10: reset preserves the paused flag -/

/-- C10: `reset()` never changes the `paused` flag (the assignment is
commented out in the source precisely because an estimator can be reset
while paused); consequently an estimator reset while paused stays
paused. -/
theorem reset_preserves_paused (s : St M) :
    (resetState s).paused = s.paused := rfl

/-! ### C6: the idle re-arm timer -/

/-- C6 (code bug): every non-paused `process` call re-arms the idle
timer, whose callback is `_analyse(null)` (the `tick`), but the armed
delay is 60000 ms, not the 1000 ms (one second) that the claim and the
code's own comment state. -/
theorem idle_rearm_duration_bug :
    (process statFnZero 0 (some ()) (initState Unit 1 false false false)).timer
      = some idleDelayMs ∧
    idleDelayMs = 60000 ∧
    ¬ idleDelayMs = 1000 ∧
    (∀ (s : St Unit) (now : Int),
      tick statFnZero now s = analyse statFnZero now none s) :=
  ⟨rfl, rfl, by decide, fun _ _ => rfl⟩

/-! ### C8: constructor bufferSize arithmetic and fallbacks -/

/-- C8 counterexample: the claim says a non-positive `interval` falls
back to an effective interval of `1`, but `-2` is truthy, so the code
keeps `parseInt(-2) = -2` and computes a bufferSize of `-2`, not
`1 × 1 = 1`. -/
theorem interval_fallback_cex :
    bufferSizeOf "sec" (ConfigVal.num (-2)) = some (-2) ∧
    (some (-2) : Option Int) ≠ some 1 :=
  ⟨rfl, by decide⟩

/-- C8 (amended): `bufferSize = frequencyBase × interval` with the
frequency mapped by `{sec→1, min→60, hour→3600}` and any other
frequency falling back to `1`; the interval falls back to `1` exactly
when the configured value is falsy (absent, the number `0`, or the
empty string), while any truthy value is used as `parseInt(value)`
unchanged, so truthy non-positive or unparsable values do not fall
back. -/
theorem bufferSize_rule_amended :
    (frequencyBase "sec" = 1 ∧ frequencyBase "min" = 60 ∧
      frequencyBase "hour" = 3600) ∧
    (∀ f : String, f ≠ "sec" → f ≠ "min" → f ≠ "hour" → frequencyBase f = 1) ∧
    (∀ (f : String) (iv : ConfigVal), iv.truthy = false →
      bufferSizeOf f iv = some (frequencyBase f)) ∧
    (∀ (f : String) (iv : ConfigVal), iv.truthy = true →
      bufferSizeOf f iv = (parseIntJS iv).map (fun i => frequencyBase f * i)) := by
  refine ⟨⟨rfl, rfl, rfl⟩, ?_, ?_, ?_⟩
  · intro f h1 h2 h3
    simp [frequencyBase, h1, h2, h3]
  · intro f iv h
    simp [bufferSizeOf, intervalField, h]
  · intro f iv h
    simp [bufferSizeOf, intervalField, h]

/-- Witness: the amended rule evaluated at the unknown frequency
`"day"`, at an absent interval, and at the truthy string interval
`"5"`. -/
theorem bufferSize_rule_amended_witness :
    (("day" : String) ≠ "sec" ∧ ConfigVal.truthy ConfigVal.undef = false ∧
      ConfigVal.truthy (ConfigVal.str "5") = true) ∧
    frequencyBase "day" = 1 ∧
    bufferSizeOf "hour" ConfigVal.undef = some (frequencyBase "hour") ∧
    bufferSizeOf "min" (ConfigVal.str "5") =
      (parseIntJS (ConfigVal.str "5")).map (fun i => frequencyBase "min" * i) :=
  ⟨⟨by decide, rfl, by decide⟩,
   bufferSize_rule_amended.2.1 "day" (by decide) (by decide) (by decide),
   bufferSize_rule_amended.2.2.1 "hour" ConfigVal.undef rfl,
   bufferSize_rule_amended.2.2.2 "min" (ConfigVal.str "5") (by decide)⟩

/-! ### C5: the startup-estimation reporting rule -/

/-- C5: in every flush iteration where the buffer size after the push
is strictly below capacity, startup-estimation is enabled and the size
is positive, the reported count and statistic are the floor-divided
extrapolations of the raw running sums; in every other iteration the
raw running sums are reported unchanged; and the pair handed to the
`sendMsg` collaborator is exactly the reported pair. -/
theorem startup_estimation_policy :
    (∀ s : St M, (stepBuffer s).length < s.bufferSize →
      s.estimationStartup = true → 0 < (stepBuffer s).length →
      stepReported s =
        ((stepCountSum s * (s.bufferSize : Int)).fdiv ((stepBuffer s).length : Int),
         (stepStatSum s * (s.bufferSize : Int)).fdiv ((stepBuffer s).length : Int),
         true)) ∧
    (∀ s : St M,
      ¬((stepBuffer s).length < s.bufferSize ∧ s.estimationStartup = true ∧
          0 < (stepBuffer s).length) →
      stepReported s = (stepCountSum s, stepStatSum s, stepIsStartup s)) ∧
    (∀ (s : St M) (e : Int), s.ignoreStartup = false →
      (analyseStep e s).sendCalls =
        ((stepReported s).1, (stepReported s).2.1) :: s.sendCalls) := by
  refine ⟨?_, ?_, ?_⟩
  · intro s h1 h2 h3
    rw [stepReported, if_pos h1, if_pos ⟨h2, h3⟩]
  · intro s h
    rw [stepReported]
    by_cases h1 : (stepBuffer s).length < s.bufferSize
    · rw [if_pos h1, if_neg (fun hin => h ⟨h1, hin⟩)]
      simp [stepIsStartup, h1]
    · rw [if_neg h1]
      simp [stepIsStartup, h1]
  · intro s e h
    show (if s.ignoreStartup = false ∨ stepIsStartup s = false then
        ((stepReported s).1, (stepReported s).2.1) :: s.sendCalls
      else s.sendCalls) = _
    rw [if_pos (Or.inl h)]

/-- Witness: the estimation branch at a concrete startup iteration
(capacity 2, one cell, one pending message with statistic 4, reported
`(floor(1*2/1), floor(4*2/1)) = (2, 8)`), and the raw branch at a
concrete full-buffer iteration. -/
theorem startup_estimation_policy_witness :
    ((stepBuffer startupStepState).length < startupStepState.bufferSize ∧
      startupStepState.estimationStartup = true ∧
      0 < (stepBuffer startupStepState).length) ∧
    stepReported startupStepState = (2, 8, true) ∧
    ¬((stepBuffer fullStepState).length < fullStepState.bufferSize ∧
        fullStepState.estimationStartup = true ∧
        0 < (stepBuffer fullStepState).length) ∧
    stepReported fullStepState = (0, 0, false) ∧
    fullStepState.ignoreStartup = false ∧
    (analyseStep 1000 fullStepState).sendCalls = [(0, 0)] := by
  refine ⟨⟨by decide, rfl, by decide⟩, ?_, by decide, ?_, rfl, ?_⟩
  · rw [startup_estimation_policy.1 startupStepState (by decide) rfl (by decide)]
    decide
  · rw [startup_estimation_policy.2.1 fullStepState (by decide)]
    decide
  · rw [startup_estimation_policy.2.2 fullStepState 1000 rfl]
    decide

/-! ### C1: running sums equal the buffer sums in every reachable state -/

theorem sum_take_getD (f : Cell → Int) :
    ∀ (l : List Cell) (n : Nat), l.length = n + 1 →
      ((l.take n).map f).sum = (l.map f).sum - f (l.getD n ⟨0, 0⟩) := by
  intro l
  induction l with
  | nil => intro n h; simp at h
  | cons x xs ih =>
    intro n h
    cases n with
    | zero =>
      have hx : xs = [] := by
        cases xs with
        | nil => rfl
        | cons y ys => simp at h
      subst hx
      simp
    | succ n =>
      have hxs : xs.length = n + 1 := by simpa using h
      have := ih n hxs
      simp only [List.take_succ_cons, List.map_cons, List.sum_cons,
        List.getD_cons_succ, this]
      ring

theorem sumInv_analyseStep (e : Int) (s : St M) (h : SumInv s) :
    SumInv (analyseStep e s) := by
  obtain ⟨hc, hs, hlen, hcap⟩ := h
  by_cases hfull : s.bufferSize ≤ s.circularBuffer.length
  · -- buffer at capacity: the tail cell is evicted
    have hlen' : s.circularBuffer.length = s.bufferSize := le_antisymm hlen hfull
    have hev : evictedCell s = s.circularBuffer.getD (s.bufferSize - 1) ⟨0, 0⟩ := by
      rw [evictedCell, if_pos hfull]
    have hb : stepBuffer s =
        Cell.mk s.newMsgCount s.newMsgStatistic ::
          s.circularBuffer.take (s.bufferSize - 1) := by
      rw [stepBuffer]
      have heq : s.bufferSize = (s.bufferSize - 1) + 1 := by omega
      conv_lhs => rw [heq]
      rw [List.take_succ_cons]
    have hlenpred : s.circularBuffer.length = (s.bufferSize - 1) + 1 := by omega
    have hcount := sum_take_getD Cell.msgCount s.circularBuffer (s.bufferSize - 1) hlenpred
    have hstat := sum_take_getD Cell.msgStatistic s.circularBuffer (s.bufferSize - 1) hlenpred
    refine ⟨?_, ?_, ?_, hcap⟩
    · show stepCountSum s = cellCountSum (stepBuffer s)
      rw [stepCountSum, hev, hb]
      rw [cellCountSum] at hc ⊢
      simp only [List.map_cons, List.sum_cons, hcount, hc]
      ring
    · show stepStatSum s = cellStatSum (stepBuffer s)
      rw [stepStatSum, hev, hb]
      rw [cellStatSum] at hs ⊢
      simp only [List.map_cons, List.sum_cons, hstat, hs]
      ring
    · show (stepBuffer s).length ≤ s.bufferSize
      rw [stepBuffer]
      simp [List.length_take]
  · -- buffer below capacity: nothing is evicted
    have hev : evictedCell s = ⟨0, 0⟩ := by rw [evictedCell, if_neg hfull]
    have hb : stepBuffer s =
        Cell.mk s.newMsgCount s.newMsgStatistic :: s.circularBuffer := by
      rw [stepBuffer]
      exact List.take_of_length_le (by simp; omega)
    refine ⟨?_, ?_, ?_, hcap⟩
    · show stepCountSum s = cellCountSum (stepBuffer s)
      rw [stepCountSum, hev, hb]
      rw [cellCountSum] at hc ⊢
      simp only [List.map_cons, List.sum_cons, hc]
      ring
    · show stepStatSum s = cellStatSum (stepBuffer s)
      rw [stepStatSum, hev, hb]
      rw [cellStatSum] at hs ⊢
      simp only [List.map_cons, List.sum_cons, hs]
      ring
    · show (stepBuffer s).length ≤ s.bufferSize
      rw [hb]
      simp
      omega

theorem sumInv_iter (e : Int) (n : Nat) (s : St M) (h : SumInv s) :
    SumInv ((analyseStep e)^[n] s) := by
  induction n generalizing s with
  | zero => exact h
  | succ n ih =>
    rw [Function.iterate_succ_apply]
    exact ih _ (sumInv_analyseStep e s h)

theorem sumInv_analyse (statFn : M → Int) (now : Int) (msg : Option M)
    (s : St M) (h : SumInv s) : SumInv (analyse statFn now msg s) := by
  have h1 : SumInv ({ s with
      startTime := some (s.startTime.getD now),
      endTime := some (now - ((now - s.startTime.getD now) -
        1000 * elapsedSeconds now s)) } : St M) := h
  have h2 := sumInv_iter
    (now - ((now - s.startTime.getD now) - 1000 * elapsedSeconds now s))
    (elapsedSeconds now s).toNat _ h1
  cases msg with
  | none => exact h2
  | some m => exact h2

theorem sumInv_process (statFn : M → Int) (now : Int) (msg : Option M)
    (s : St M) (h : SumInv s) : SumInv (process statFn now msg s) := by
  by_cases hp : s.paused
  · simpa [process, hp] using h
  · have := sumInv_analyse statFn now msg s h
    simpa [process, hp] using this

theorem sumInv_resetState (s : St M) (h : 1 ≤ s.bufferSize) :
    SumInv (resetState s) :=
  ⟨rfl, rfl, by simp [resetState], h⟩

theorem sumInv_pause (s : St M) (h : SumInv s) : SumInv (pause s) := by
  by_cases hp : s.paused
  · simpa [pause, hp] using h
  · simpa [pause, hp] using h

theorem sumInv_resume (statFn : M → Int) (a b : Int) (s : St M)
    (h : SumInv s) : SumInv (resume statFn a b s) := by
  by_cases hp : s.paused
  · have h1 : SumInv ({ s with paused := false, startTime := some a } : St M) := h
    have := sumInv_process statFn b none _ h1
    simpa [resume, hp] using this
  · simpa [resume, hp] using h

theorem sumInv_stop (s : St M) (h : 1 ≤ s.bufferSize) : SumInv (stop s) :=
  sumInv_resetState ({ s with timer := none } : St M) h

theorem sumInv_reachable (statFn : M → Int) (cap : Nat) (est ign : Bool)
    (s : St M) (h : Reachable statFn cap est ign s) (hcap : 1 ≤ cap) :
    SumInv s := by
  induction h with
  | init paused => exact ⟨rfl, rfl, by simp [initState], hcap⟩
  | procStep now msg _ ih => exact sumInv_process _ now msg _ ih
  | tickStep now _ _ ih => exact sumInv_analyse _ now none _ ih
  | pauseStep _ ih => exact sumInv_pause _ ih
  | resumeStep tResume tProcess _ ih => exact sumInv_resume _ tResume tProcess _ ih
  | stopStep _ ih => exact sumInv_stop _ ih.2.2.2
  | resetStep _ ih => exact sumInv_resetState _ ih.2.2.2

/-- C1: in every reachable state of the estimator (after any sequence
of record/process calls, idle-timer ticks, pause, resume, stop and
reset), `msgCountInBuffer` equals the sum of `msgCount` over the cells
currently stored in the circular buffer, and `msgStatisticInBuffer`
equals the sum of `msgStatistic` over those cells. -/
theorem runningSums_invariant (statFn : M → Int) (cap : Nat) (est ign : Bool)
    (s : St M) (h : Reachable statFn cap est ign s) (hcap : 1 ≤ cap) :
    s.msgCountInBuffer = cellCountSum s.circularBuffer ∧
    s.msgStatisticInBuffer = cellStatSum s.circularBuffer := by
  have := sumInv_reachable statFn cap est ign s h hcap
  exact ⟨this.1, this.2.1⟩

/-- Witness: a concrete reachable state (one recorded message at t=0,
then an idle tick at t=1000, capacity 2) on which the running sums
coincide with the buffer sums. -/
theorem runningSums_invariant_witness :
    1 ≤ 2 ∧
    ((tick statFnZero 1000 (process statFnZero 0 (some ())
        (initState Unit 2 false false false))).msgCountInBuffer =
      cellCountSum (tick statFnZero 1000 (process statFnZero 0 (some ())
        (initState Unit 2 false false false))).circularBuffer ∧
     (tick statFnZero 1000 (process statFnZero 0 (some ())
        (initState Unit 2 false false false))).msgStatisticInBuffer =
      cellStatSum (tick statFnZero 1000 (process statFnZero 0 (some ())
        (initState Unit 2 false false false))).circularBuffer) :=
  ⟨by decide,
   runningSums_invariant statFnZero 2 false false _
     (Reachable.tickStep 1000
       (Reachable.procStep 0 (some ()) (Reachable.init false)) (by decide))
     (by decide)⟩

/-! ### C3: each event is counted exactly once -/

theorem cellCountSum_cons (c : Cell) (l : List Cell) :
    cellCountSum (c :: l) = c.msgCount + cellCountSum l := by
  simp [cellCountSum]

theorem iter_newMsgCount_of_zero (e : Int) (n : Nat) (x : St M)
    (h : x.newMsgCount = 0) : ((analyseStep e)^[n] x).newMsgCount = 0 := by
  induction n generalizing x with
  | zero => exact h
  | succ n ih =>
    rw [Function.iterate_succ_apply]
    exact ih _ (analyseStep_newMsgCount e x)

theorem iter_newMsgStatistic_of_zero (e : Int) (n : Nat) (x : St M)
    (h : x.newMsgStatistic = 0) : ((analyseStep e)^[n] x).newMsgStatistic = 0 := by
  induction n generalizing x with
  | zero => exact h
  | succ n ih =>
    rw [Function.iterate_succ_apply]
    exact ih _ (analyseStep_newMsgStatistic e x)

theorem consv_analyseStep (e : Int) (s : St M)
    (h : (s.statCalls.length : Int) = cellCountSum s.enqTrace + s.newMsgCount) :
    ((analyseStep e s).statCalls.length : Int) =
      cellCountSum (analyseStep e s).enqTrace + (analyseStep e s).newMsgCount := by
  show (s.statCalls.length : Int) =
    cellCountSum (Cell.mk s.newMsgCount s.newMsgStatistic :: s.enqTrace) + 0
  rw [cellCountSum_cons]
  show (s.statCalls.length : Int) = s.newMsgCount + cellCountSum s.enqTrace + 0
  omega

theorem consv_iter (e : Int) (n : Nat) (s : St M)
    (h : (s.statCalls.length : Int) = cellCountSum s.enqTrace + s.newMsgCount) :
    (((analyseStep e)^[n] s).statCalls.length : Int) =
      cellCountSum ((analyseStep e)^[n] s).enqTrace +
        ((analyseStep e)^[n] s).newMsgCount := by
  induction n generalizing s with
  | zero => exact h
  | succ n ih =>
    rw [Function.iterate_succ_apply]
    exact ih _ (consv_analyseStep e s h)

theorem analyse_some_eq (statFn : M → Int) (now : Int) (m : M) (s : St M) :
    analyse statFn now (some m) s =
      { analyse statFn now none s with
        newMsgCount := (analyse statFn now none s).newMsgCount + 1
        newMsgStatistic := (analyse statFn now none s).newMsgStatistic + statFn m
        statCalls := m :: (analyse statFn now none s).statCalls } := rfl

theorem consv_analyse (statFn : M → Int) (now : Int) (msg : Option M) (s : St M)
    (h : (s.statCalls.length : Int) = cellCountSum s.enqTrace + s.newMsgCount) :
    ((analyse statFn now msg s).statCalls.length : Int) =
      cellCountSum (analyse statFn now msg s).enqTrace +
        (analyse statFn now msg s).newMsgCount := by
  have h1 : (({ s with
      startTime := some (s.startTime.getD now),
      endTime := some (now - ((now - s.startTime.getD now) -
        1000 * elapsedSeconds now s)) } : St M).statCalls.length : Int) =
      cellCountSum ({ s with
        startTime := some (s.startTime.getD now),
        endTime := some (now - ((now - s.startTime.getD now) -
          1000 * elapsedSeconds now s)) } : St M).enqTrace +
        ({ s with
          startTime := some (s.startTime.getD now),
          endTime := some (now - ((now - s.startTime.getD now) -
            1000 * elapsedSeconds now s)) } : St M).newMsgCount := h
  have h2 : ((analyse statFn now none s).statCalls.length : Int) =
      cellCountSum (analyse statFn now none s).enqTrace +
        (analyse statFn now none s).newMsgCount :=
    consv_iter
      (now - ((now - s.startTime.getD now) - 1000 * elapsedSeconds now s))
      (elapsedSeconds now s).toNat _ h1
  cases msg with
  | none => exact h2
  | some m =>
    rw [analyse_some_eq]
    simp only [List.length_cons]
    push_cast
    omega

theorem consv_process (statFn : M → Int) (now : Int) (msg : Option M) (s : St M)
    (h : (s.statCalls.length : Int) = cellCountSum s.enqTrace + s.newMsgCount) :
    ((process statFn now msg s).statCalls.length : Int) =
      cellCountSum (process statFn now msg s).enqTrace +
        (process statFn now msg s).newMsgCount := by
  by_cases hp : s.paused
  · simpa [process, hp] using h
  · have := consv_analyse statFn now msg s h
    simpa [process, hp] using this

/-- C3: for every `process` call with a non-null event while not
paused, the per-event statistic function is invoked exactly once on
that event (the `statCalls` trace grows by exactly that event), the
event is added to the pending second only after the catch-up loop
(`newMsgCount` ends at 1 when the loop ran, at its old value plus 1
otherwise, and `newMsgStatistic` grows by the statistic of the event);
and across every reachable state the events recorded since the last
reset are conserved: each one sits either in exactly one enqueued cell
or in the still-open pending second, never in zero cells and never in
two (`statCalls.length = Σ msgCount over enqueued cells + newMsgCount`). -/
theorem event_counted_once (statFn : M → Int) (cap : Nat) (est ign : Bool) :
    (∀ (s : St M) (now : Int) (m : M), s.paused = false →
      (process statFn now (some m) s).statCalls = m :: s.statCalls ∧
      (process statFn now (some m) s).newMsgCount =
        (if 0 < elapsedSeconds now s then 0 else s.newMsgCount) + 1 ∧
      (process statFn now (some m) s).newMsgStatistic =
        (if 0 < elapsedSeconds now s then 0 else s.newMsgStatistic) + statFn m) ∧
    (∀ s : St M, Reachable statFn cap est ign s →
      (s.statCalls.length : Int) = cellCountSum s.enqTrace + s.newMsgCount) := by
  constructor
  · intro s now m hp
    refine ⟨?_, ?_, ?_⟩
    · have hgoal : (analyse statFn now (some m) s).statCalls = m :: s.statCalls := by
        simp [analyse, iter_statCalls]
      simpa [process, hp] using hgoal
    · rcases hn : (elapsedSeconds now s).toNat with _ | k
      · have hlt : ¬ 0 < elapsedSeconds now s := by omega
        simp [process, hp, analyse, hn, hlt]
      · have hlt : 0 < elapsedSeconds now s := by omega
        simp only [process, hp, analyse, hn, hlt, if_true, if_false,
          Bool.false_eq_true, Function.iterate_succ_apply]
        simp [iter_newMsgCount_of_zero _ k _ (analyseStep_newMsgCount _ _), hlt]
    · rcases hn : (elapsedSeconds now s).toNat with _ | k
      · have hlt : ¬ 0 < elapsedSeconds now s := by omega
        simp [process, hp, analyse, hn, hlt]
      · have hlt : 0 < elapsedSeconds now s := by omega
        simp only [process, hp, analyse, hn, hlt, if_true, if_false,
          Bool.false_eq_true, Function.iterate_succ_apply]
        simp [iter_newMsgStatistic_of_zero _ k _ (analyseStep_newMsgStatistic _ _), hlt]
  · intro s h
    induction h with
    | init paused => rfl
    | procStep now msg _ ih => exact consv_process _ now msg _ ih
    | tickStep now _ _ ih => exact consv_analyse _ now none _ ih
    | @pauseStep t _ ih =>
      by_cases hp : t.paused
      · simpa [pause, hp] using ih
      · simpa [pause, hp] using ih
    | @resumeStep t tResume tProcess _ ih =>
      by_cases hp : t.paused
      · have h1 : ((({ t with paused := false, startTime := some tResume } :
            St M)).statCalls.length : Int) =
            cellCountSum (({ t with paused := false, startTime := some tResume } :
              St M)).enqTrace +
            (({ t with paused := false, startTime := some tResume } :
              St M)).newMsgCount := ih
        have := consv_process statFn tProcess none _ h1
        simpa [resume, hp] using this
      · simpa [resume, hp] using ih
    | stopStep _ ih => rfl
    | resetStep _ ih => rfl


/-- Witness: one `process` call with a real event on a fresh running
estimator invokes the statistic function exactly once and puts the
event into the pending second; the conservation equation holds on the
resulting reachable state. -/
theorem event_counted_once_witness :
    (initState Unit 2 false false false).paused = false ∧
    (process statFnZero 0 (some ()) (initState Unit 2 false false false)).statCalls
      = [()] ∧
    (process statFnZero 0 (some ()) (initState Unit 2 false false false)).newMsgCount
      = (if 0 < elapsedSeconds 0 (initState Unit 2 false false false) then 0
         else (initState Unit 2 false false false).newMsgCount) + 1 ∧
    (((process statFnZero 0 (some ()) (initState Unit 2 false false
        false)).statCalls.length : Int) =
      cellCountSum (process statFnZero 0 (some ()) (initState Unit 2 false false
        false)).enqTrace +
        (process statFnZero 0 (some ()) (initState Unit 2 false false
          false)).newMsgCount) :=
  ⟨rfl,
   ((event_counted_once statFnZero 2 false false).1 _ 0 () rfl).1,
   ((event_counted_once statFnZero 2 false false).1 _ 0 () rfl).2.1,
   (event_counted_once statFnZero 2 false false).2 _
     (Reachable.procStep 0 (some ()) (Reachable.init false))⟩

/-! ### C4: de-duplication of changeStatus notifications -/

theorem analyseStep_est (e : Int) (s : St M) :
    (analyseStep e s).estimationStartup = s.estimationStartup := rfl

theorem iter_est (e : Int) (n : Nat) (s : St M) :
    ((analyseStep e)^[n] s).estimationStartup = s.estimationStartup := by
  induction n generalizing s with
  | zero => rfl
  | succ n ih => rw [Function.iterate_succ_apply, ih, analyseStep_est]

theorem stepReported_of_no_est (s : St M) (h : s.estimationStartup = false) :
    stepReported s = (stepCountSum s, stepStatSum s, stepIsStartup s) := by
  rw [stepReported]
  by_cases h1 : (stepBuffer s).length < s.bufferSize
  · rw [if_pos h1, if_neg]
    · simp [stepIsStartup, h1]
    · rintro ⟨he, _⟩
      rw [h] at he
      exact Bool.false_ne_true he
  · rw [if_neg h1]
    simp [stepIsStartup, h1]

theorem stepFire_true_iff (s : St M) :
    stepFire s = true ↔
      ¬(s.prevTotalMsgCount = stepCountSum s) ∨
      ¬(s.prevMsgStatisticInBuffer = stepStatSum s) ∨
      ¬(s.prevStartup = stepIsStartup s) := by
  rw [stepFire]
  exact decide_eq_true_iff

theorem stepFire_false_iff (s : St M) :
    stepFire s = false ↔
      s.prevTotalMsgCount = stepCountSum s ∧
      s.prevMsgStatisticInBuffer = stepStatSum s ∧
      s.prevStartup = stepIsStartup s := by
  rw [stepFire]
  simp only [decide_eq_false_iff_not]
  tauto

theorem analyseStep_statusCalls_fire (e : Int) (s : St M)
    (hf : stepFire s = true) :
    (analyseStep e s).statusCalls = stepReported s :: s.statusCalls := by
  show (if stepFire s then stepReported s :: s.statusCalls else s.statusCalls) = _
  rw [hf]
  rfl

theorem analyseStep_statusCalls_nofire (e : Int) (s : St M)
    (hf : stepFire s = false) :
    (analyseStep e s).statusCalls = s.statusCalls := by
  show (if stepFire s then stepReported s :: s.statusCalls else s.statusCalls) = _
  rw [hf]
  rfl

theorem analyseStep_memo_fire (e : Int) (s : St M) (hf : stepFire s = true)
    (hest : s.estimationStartup = false) :
    statusMemoTriple (analyseStep e s) = stepReported s := by
  show ((if stepFire s then (stepReported s).1 else s.prevTotalMsgCount),
        (if stepFire s then (stepReported s).2.1 else s.prevMsgStatisticInBuffer),
        stepIsStartup s) = stepReported s
  rw [hf, stepReported_of_no_est s hest]
  rfl

theorem analyseStep_memo_nofire (e : Int) (s : St M) (hf : stepFire s = false) :
    statusMemoTriple (analyseStep e s) = statusMemoTriple s := by
  show ((if stepFire s then (stepReported s).1 else s.prevTotalMsgCount),
        (if stepFire s then (stepReported s).2.1 else s.prevMsgStatisticInBuffer),
        stepIsStartup s) = (s.prevTotalMsgCount, s.prevMsgStatisticInBuffer, s.prevStartup)
  rw [hf]
  have h3 := (stepFire_false_iff s).mp hf
  rw [if_neg (by simp), if_neg (by simp), h3.2.2]

theorem reported_ne_memo_of_fire (s : St M) (hf : stepFire s = true)
    (hest : s.estimationStartup = false) :
    stepReported s ≠ statusMemoTriple s := by
  rw [stepReported_of_no_est s hest, statusMemoTriple]
  intro hcontra
  rcases (stepFire_true_iff s).mp hf with h | h | h
  · exact h (congrArg Prod.fst hcontra).symm
  · exact h (congrArg (fun p => p.2.1) hcontra).symm
  · exact h (congrArg (fun p => p.2.2) hcontra).symm

theorem statusInv_analyseStep (e : Int) (s : St M)
    (hest : s.estimationStartup = false) (h : StatusInv s) :
    StatusInv (analyseStep e s) := by
  obtain ⟨hchain, hmemo⟩ := h
  by_cases hf : stepFire s
  · constructor
    · rw [analyseStep_statusCalls_fire e s hf]
      rw [List.chain'_cons']
      refine ⟨?_, hchain⟩
      intro b hb
      cases hs : s.statusCalls with
      | nil => rw [hs] at hb; simp at hb
      | cons hd tl =>
        rw [hs] at hb
        simp only [List.head?_cons, Option.mem_def, Option.some.injEq] at hb
        have hhd : b = hd := (by simpa using hb : hd = b).symm
        have hhead : s.statusCalls.headD (0, 0, false) = hd := by rw [hs]; rfl
        rw [hhd, ← hhead, ← hmemo]
        exact reported_ne_memo_of_fire s hf hest
    · rw [analyseStep_statusCalls_fire e s hf,
        analyseStep_memo_fire e s hf hest]
      rfl
  · rw [Bool.not_eq_true] at hf
    constructor
    · rw [analyseStep_statusCalls_nofire e s hf]
      exact hchain
    · rw [analyseStep_statusCalls_nofire e s hf,
        analyseStep_memo_nofire e s hf]
      exact hmemo

theorem statusInv_iter (e : Int) (n : Nat) (s : St M)
    (hest : s.estimationStartup = false) (h : StatusInv s) :
    StatusInv ((analyseStep e)^[n] s) := by
  induction n generalizing s with
  | zero => exact h
  | succ n ih =>
    rw [Function.iterate_succ_apply]
    exact ih _ (by rw [analyseStep_est]; exact hest) (statusInv_analyseStep e s hest h)

theorem statusInv_analyse (statFn : M → Int) (now : Int) (msg : Option M)
    (s : St M) (hest : s.estimationStartup = false) (h : StatusInv s) :
    StatusInv (analyse statFn now msg s) := by
  have h1 : StatusInv ({ s with
      startTime := some (s.startTime.getD now),
      endTime := some (now - ((now - s.startTime.getD now) -
        1000 * elapsedSeconds now s)) } : St M) := h
  have h2 := statusInv_iter
    (now - ((now - s.startTime.getD now) - 1000 * elapsedSeconds now s))
    (elapsedSeconds now s).toNat
    ({ s with
      startTime := some (s.startTime.getD now),
      endTime := some (now - ((now - s.startTime.getD now) -
        1000 * elapsedSeconds now s)) } : St M) hest h1
  cases msg with
  | none => exact h2
  | some m => exact h2

theorem statusInv_process (statFn : M → Int) (now : Int) (msg : Option M)
    (s : St M) (hest : s.estimationStartup = false) (h : StatusInv s) :
    StatusInv (process statFn now msg s) := by
  by_cases hp : s.paused
  · simpa [process, hp] using h
  · have := statusInv_analyse statFn now msg s hest h
    simpa [process, hp] using this

theorem statusInv_resetState (s : St M) : StatusInv (resetState s) :=
  ⟨List.chain'_nil, rfl⟩

theorem est_analyse (statFn : M → Int) (now : Int) (msg : Option M) (s : St M) :
    (analyse statFn now msg s).estimationStartup = s.estimationStartup := by
  cases msg <;> simp [analyse, iter_est]

theorem est_process (statFn : M → Int) (now : Int) (msg : Option M) (s : St M) :
    (process statFn now msg s).estimationStartup = s.estimationStartup := by
  by_cases hp : s.paused <;> simp [process, hp, est_analyse]

theorem est_statusInv_reachable (statFn : M → Int) (cap : Nat) (ign : Bool)
    (s : St M) (h : Reachable statFn cap false ign s) :
    s.estimationStartup = false ∧ StatusInv s := by
  induction h with
  | init paused => exact ⟨rfl, List.chain'_nil, rfl⟩
  | procStep now msg _ ih =>
    exact ⟨by rw [est_process]; exact ih.1, statusInv_process _ now msg _ ih.1 ih.2⟩
  | tickStep now _ _ ih =>
    exact ⟨by rw [tick, est_analyse]; exact ih.1,
      statusInv_analyse _ now none _ ih.1 ih.2⟩
  | @pauseStep t _ ih =>
    by_cases hp : t.paused
    · exact ⟨by simpa [pause, hp] using ih.1, by simpa [pause, hp] using ih.2⟩
    · exact ⟨by simpa [pause, hp] using ih.1, by simpa [pause, hp] using ih.2⟩
  | @resumeStep t tResume tProcess _ ih =>
    by_cases hp : t.paused
    · have hest1 : (({ t with paused := false, startTime := some tResume } :
          St M)).estimationStartup = false := ih.1
      have h1 : StatusInv (({ t with paused := false, startTime := some tResume } :
          St M)) := ih.2
      have := statusInv_process statFn tProcess none _ hest1 h1
      refine ⟨?_, by simpa [resume, hp] using this⟩
      rw [resume]
      simp only [hp, if_true]
      rw [est_process]
      exact hest1
    · exact ⟨by simpa [resume, hp] using ih.1, by simpa [resume, hp] using ih.2⟩
  | stopStep _ ih => exact ⟨ih.1, statusInv_resetState _⟩
  | resetStep _ ih => exact ⟨ih.1, statusInv_resetState _⟩

/-- C4 counterexample: with startup-estimation enabled (capacity 3),
record one message at t=0, tick at t=1000 (notifies `(3, 0, true)`),
record one message at t=1500, tick at t=2000: the guard compares the
memoized *reported* count 3 with the *raw* running sum 2, finds them
different, and notifies `(3, 0, true)` again — two consecutive
identical notifications, which the claim forbids. -/
theorem status_dedup_cex :
    (tick statFnZero 2000 (process statFnZero 1500 (some ())
      (tick statFnZero 1000 (process statFnZero 0 (some ())
        (initState Unit 3 true false false))))).statusCalls
      = [(3, 0, true), (3, 0, true)] ∧
    ¬ List.Chain' (fun a b => a ≠ b)
        ([((3 : Int), (0 : Int), true), ((3 : Int), (0 : Int), true)]) :=
  ⟨by decide, by simp [List.chain'_cons]⟩

/-- C4 (amended): when startup-estimation is disabled the claim holds:
in every reachable state no two consecutive `changeStatus`
notifications are equal, the memo triple equals the last notified
triple (initially `(0, 0, false)`), and the next flush iteration
notifies exactly when its reported triple differs from the last
notified triple.  With estimation enabled the guard compares the raw
sums against the memoized reported values, so duplicate notifications
can occur (see the counterexample). -/
theorem status_dedup_amended (statFn : M → Int) (cap : Nat) (ign : Bool)
    (s : St M) (h : Reachable statFn cap false ign s) :
    List.Chain' (fun a b => a ≠ b) s.statusCalls ∧
    (s.prevTotalMsgCount, s.prevMsgStatisticInBuffer, s.prevStartup) =
      s.statusCalls.headD (0, 0, false) ∧
    ∀ e : Int, (analyseStep e s).statusCalls ≠ s.statusCalls ↔
      stepReported s ≠ s.statusCalls.headD (0, 0, false) := by
  obtain ⟨hest, hchain, hmemo⟩ := est_statusInv_reachable statFn cap ign s h
  refine ⟨hchain, hmemo, ?_⟩
  intro e
  by_cases hf : stepFire s
  · refine iff_of_true ?_ ?_
    · rw [analyseStep_statusCalls_fire e s hf]
      intro hcontra
      have := congrArg List.length hcontra
      simp at this
    · rw [← hmemo]
      exact reported_ne_memo_of_fire s hf hest
  · rw [Bool.not_eq_true] at hf
    refine iff_of_false ?_ ?_
    · rw [analyseStep_statusCalls_nofire e s hf]
      exact fun hc => hc rfl
    · rw [← hmemo, stepReported_of_no_est s hest, statusMemoTriple]
      have h3 := (stepFire_false_iff s).mp hf
      intro hc
      exact hc (by rw [h3.1, h3.2.1, h3.2.2])

/-- Witness: the amended de-duplication statement evaluated on the
reachable state after one recorded message at t=0 and one idle tick at
t=1000 (estimation disabled, capacity 3). -/
theorem status_dedup_amended_witness :
    List.Chain' (fun a b => a ≠ b)
      (tick statFnZero 1000 (process statFnZero 0 (some ())
        (initState Unit 3 false false false))).statusCalls ∧
    ((tick statFnZero 1000 (process statFnZero 0 (some ())
        (initState Unit 3 false false false))).prevTotalMsgCount,
     (tick statFnZero 1000 (process statFnZero 0 (some ())
        (initState Unit 3 false false false))).prevMsgStatisticInBuffer,
     (tick statFnZero 1000 (process statFnZero 0 (some ())
        (initState Unit 3 false false false))).prevStartup) =
      (tick statFnZero 1000 (process statFnZero 0 (some ())
        (initState Unit 3 false false false))).statusCalls.headD (0, 0, false) ∧
    ((analyseStep 2000 (tick statFnZero 1000 (process statFnZero 0 (some ())
        (initState Unit 3 false false false)))).statusCalls ≠
      (tick statFnZero 1000 (process statFnZero 0 (some ())
        (initState Unit 3 false false false))).statusCalls ↔
      stepReported (tick statFnZero 1000 (process statFnZero 0 (some ())
        (initState Unit 3 false false false))) ≠
      (tick statFnZero 1000 (process statFnZero 0 (some ())
        (initState Unit 3 false false false))).statusCalls.headD (0, 0, false)) := by
  have h := status_dedup_amended statFnZero 3 false _
    (Reachable.tickStep 1000
      (Reachable.procStep 0 (some ()) (Reachable.init false)) (by decide))
  exact ⟨h.1, h.2.1, h.2.2 2000⟩

/-! ### C2: catch-up equivalence of one 5-second flush and five 1-second flushes -/

theorem analyse_none_gap (statFn : M → Int) (s : St M) (t0 d : Int)
    (h : s.startTime = some t0) :
    analyse statFn (t0 + 1000 * d) none s =
      (analyseStep (t0 + 1000 * d))^[d.toNat]
        { s with startTime := some t0, endTime := some (t0 + 1000 * d) } := by
  have harith : t0 + 1000 * d - t0 = 1000 * d := by ring
  have hsec : elapsedSeconds (t0 + 1000 * d) s = d := by
    rw [elapsedSeconds, h, Option.getD_some, harith]
    exact Int.mul_fdiv_cancel_left d (by norm_num)
  simp only [analyse, h, Option.getD_some, hsec, harith]
  norm_num

theorem analyse_none_one (statFn : M → Int) (s : St M) (t0 : Int)
    (h : s.startTime = some t0) :
    analyse statFn (t0 + 1000) none s =
      analyseStep (t0 + 1000)
        { s with startTime := some t0, endTime := some (t0 + 1000) } := by
  have h2 := analyse_none_gap statFn s t0 1 h
  rw [show (1000 : Int) * 1 = 1000 from by norm_num] at h2
  rw [show ((1 : Int)).toNat = 1 from rfl, Function.iterate_one] at h2
  exact h2

theorem analyseStep_absorb_times (e : Int) (sa sb : Option Int) (x : St M) :
    analyseStep e ({ x with startTime := sa, endTime := sb } : St M) =
      { analyseStep e x with endTime := sb } := rfl

theorem analyseStep_absorb_end (e : Int) (sb : Option Int) (x : St M) :
    analyseStep e ({ x with endTime := sb } : St M) =
      { analyseStep e x with endTime := sb } := rfl

theorem endTime_override (x : St M) (b c : Option Int) :
    ({ ({ x with endTime := b } : St M) with endTime := c } : St M) =
      { x with endTime := c } := rfl

theorem analyseStep_inner_label (e e1 e2 : Int) (x : St M) :
    analyseStep e (analyseStep e1 x) = analyseStep e (analyseStep e2 x) := rfl

theorem iter_enqTrace_zero (e : Int) (n : Nat) (x : St M)
    (hc : x.newMsgCount = 0) (hs : x.newMsgStatistic = 0) :
    ((analyseStep e)^[n] x).enqTrace =
      List.replicate n (Cell.mk 0 0) ++ x.enqTrace := by
  induction n generalizing x with
  | zero => rfl
  | succ n ih =>
    rw [Function.iterate_succ_apply]
    rw [ih _ (analyseStep_newMsgCount e x) (analyseStep_newMsgStatistic e x)]
    have hcell : (analyseStep e x).enqTrace = Cell.mk 0 0 :: x.enqTrace := by
      show Cell.mk x.newMsgCount x.newMsgStatistic :: x.enqTrace = _
      rw [hc, hs]
    rw [hcell]
    simp [List.replicate_succ', List.append_assoc]

set_option maxHeartbeats 3200000 in
/-- C2: from any state with a non-null `startTime` and an empty
pending second, one `_analyse(null)` after a 5-second gap enqueues
exactly 5 cells of `{0, 0}`, and the final state is identical to the
one obtained by calling `_analyse(null)` five times, once at each
successive 1-second boundary. -/
theorem catchup_equivalence (statFn : M → Int) (s : St M) (t0 : Int)
    (hst : s.startTime = some t0) (hc : s.newMsgCount = 0)
    (hs : s.newMsgStatistic = 0) :
    (analyse statFn (t0 + 5000) none s).enqTrace =
      List.replicate 5 (Cell.mk 0 0) ++ s.enqTrace ∧
    analyse statFn (t0 + 5000) none s =
      analyse statFn (t0 + 5000) none (analyse statFn (t0 + 4000) none
        (analyse statFn (t0 + 3000) none (analyse statFn (t0 + 2000) none
          (analyse statFn (t0 + 1000) none s)))) := by
  have lhs_eq : analyse statFn (t0 + 5000) none s =
      (analyseStep (t0 + 5000))^[5]
        ({ s with startTime := some t0, endTime := some (t0 + 5000) } : St M) := by
    have h5 := analyse_none_gap statFn s t0 5 hst
    rw [show (1000 : Int) * 5 = 5000 from by norm_num] at h5
    rw [show ((5 : Int)).toNat = 5 from rfl] at h5
    exact h5
  constructor
  · rw [lhs_eq]
    exact iter_enqTrace_zero (t0 + 5000) 5 _ hc hs
  · have r1 : analyse statFn (t0 + 1000) none s =
        ({ analyseStep (t0 + 1000) s with endTime := some (t0 + 1000) } : St M) := by
      rw [analyse_none_one statFn s t0 hst, analyseStep_absorb_times]
    have r2 : analyse statFn (t0 + 2000) none
        ({ analyseStep (t0 + 1000) s with endTime := some (t0 + 1000) } : St M) =
        ({ analyseStep (t0 + 2000) (analyseStep (t0 + 1000) s) with
          endTime := some (t0 + 2000) } : St M) := by
      have h := analyse_none_one statFn
        ({ analyseStep (t0 + 1000) s with endTime := some (t0 + 1000) } : St M)
        (t0 + 1000) rfl
      rw [show t0 + 1000 + 1000 = t0 + 2000 from by ring] at h
      rw [analyseStep_absorb_times, analyseStep_absorb_end, endTime_override] at h
      exact h
    have r3 : analyse statFn (t0 + 3000) none
        ({ analyseStep (t0 + 2000) (analyseStep (t0 + 1000) s) with
          endTime := some (t0 + 2000) } : St M) =
        ({ analyseStep (t0 + 3000) (analyseStep (t0 + 2000)
            (analyseStep (t0 + 1000) s)) with
          endTime := some (t0 + 3000) } : St M) := by
      have h := analyse_none_one statFn
        ({ analyseStep (t0 + 2000) (analyseStep (t0 + 1000) s) with
          endTime := some (t0 + 2000) } : St M) (t0 + 2000) rfl
      rw [show t0 + 2000 + 1000 = t0 + 3000 from by ring] at h
      rw [analyseStep_absorb_times, analyseStep_absorb_end, endTime_override] at h
      exact h
    have r4 : analyse statFn (t0 + 4000) none
        ({ analyseStep (t0 + 3000) (analyseStep (t0 + 2000)
            (analyseStep (t0 + 1000) s)) with
          endTime := some (t0 + 3000) } : St M) =
        ({ analyseStep (t0 + 4000) (analyseStep (t0 + 3000) (analyseStep (t0 + 2000)
            (analyseStep (t0 + 1000) s))) with
          endTime := some (t0 + 4000) } : St M) := by
      have h := analyse_none_one statFn
        ({ analyseStep (t0 + 3000) (analyseStep (t0 + 2000)
            (analyseStep (t0 + 1000) s)) with
          endTime := some (t0 + 3000) } : St M) (t0 + 3000) rfl
      rw [show t0 + 3000 + 1000 = t0 + 4000 from by ring] at h
      rw [analyseStep_absorb_times, analyseStep_absorb_end, endTime_override] at h
      exact h
    have r5 : analyse statFn (t0 + 5000) none
        ({ analyseStep (t0 + 4000) (analyseStep (t0 + 3000) (analyseStep (t0 + 2000)
            (analyseStep (t0 + 1000) s))) with
          endTime := some (t0 + 4000) } : St M) =
        ({ analyseStep (t0 + 5000) (analyseStep (t0 + 4000) (analyseStep (t0 + 3000)
            (analyseStep (t0 + 2000) (analyseStep (t0 + 1000) s)))) with
          endTime := some (t0 + 5000) } : St M) := by
      have h := analyse_none_one statFn
        ({ analyseStep (t0 + 4000) (analyseStep (t0 + 3000) (analyseStep (t0 + 2000)
            (analyseStep (t0 + 1000) s))) with
          endTime := some (t0 + 4000) } : St M) (t0 + 4000) rfl
      rw [show t0 + 4000 + 1000 = t0 + 5000 from by ring] at h
      rw [analyseStep_absorb_times, analyseStep_absorb_end, endTime_override] at h
      exact h
    have iter5 : (analyseStep (t0 + 5000))^[5]
        ({ s with startTime := some t0, endTime := some (t0 + 5000) } : St M) =
        analyseStep (t0 + 5000) (analyseStep (t0 + 5000) (analyseStep (t0 + 5000)
          (analyseStep (t0 + 5000) (analyseStep (t0 + 5000)
            ({ s with startTime := some t0, endTime := some (t0 + 5000) } :
              St M))))) := rfl
    have c1 : analyseStep (t0 + 5000)
        ({ s with startTime := some t0, endTime := some (t0 + 5000) } : St M) =
        ({ analyseStep (t0 + 5000) s with endTime := some (t0 + 5000) } : St M) :=
      analyseStep_absorb_times (t0 + 5000) (some t0) (some (t0 + 5000)) s
    have c2 := (congrArg (analyseStep (t0 + 5000)) c1).trans
      (analyseStep_absorb_end (t0 + 5000) (some (t0 + 5000))
        (analyseStep (t0 + 5000) s))
    have c3 := (congrArg (analyseStep (t0 + 5000)) c2).trans
      (analyseStep_absorb_end (t0 + 5000) (some (t0 + 5000))
        (analyseStep (t0 + 5000) (analyseStep (t0 + 5000) s)))
    have c4 := (congrArg (analyseStep (t0 + 5000)) c3).trans
      (analyseStep_absorb_end (t0 + 5000) (some (t0 + 5000))
        (analyseStep (t0 + 5000) (analyseStep (t0 + 5000)
          (analyseStep (t0 + 5000) s))))
    have c5 := (congrArg (analyseStep (t0 + 5000)) c4).trans
      (analyseStep_absorb_end (t0 + 5000) (some (t0 + 5000))
        (analyseStep (t0 + 5000) (analyseStep (t0 + 5000) (analyseStep (t0 + 5000)
          (analyseStep (t0 + 5000) s)))))
    rw [r1, r2, r3, r4, r5, lhs_eq]
    rw [analyseStep_inner_label (t0 + 2000) (t0 + 1000) (t0 + 5000) s]
    rw [analyseStep_inner_label (t0 + 3000) (t0 + 2000) (t0 + 5000)
      (analyseStep (t0 + 5000) s)]
    rw [analyseStep_inner_label (t0 + 4000) (t0 + 3000) (t0 + 5000)
      (analyseStep (t0 + 5000) (analyseStep (t0 + 5000) s))]
    rw [analyseStep_inner_label (t0 + 5000) (t0 + 4000) (t0 + 5000)
      (analyseStep (t0 + 5000) (analyseStep (t0 + 5000) (analyseStep (t0 + 5000) s)))]
    rw [iter5.trans c5]

/-- Witness: the catch-up equivalence evaluated on the concrete state
with an open window at time 0 and an empty pending second. -/
theorem catchup_equivalence_witness :
    openWindowState.startTime = some 0 ∧
    openWindowState.newMsgCount = 0 ∧
    openWindowState.newMsgStatistic = 0 ∧
    ((analyse statFnZero (0 + 5000) none openWindowState).enqTrace =
      List.replicate 5 (Cell.mk 0 0) ++ openWindowState.enqTrace ∧
     analyse statFnZero (0 + 5000) none openWindowState =
      analyse statFnZero (0 + 5000) none (analyse statFnZero (0 + 4000) none
        (analyse statFnZero (0 + 3000) none (analyse statFnZero (0 + 2000) none
          (analyse statFnZero (0 + 1000) none openWindowState))))) :=
  ⟨rfl, rfl, rfl, catchup_equivalence statFnZero openWindowState 0 rfl rfl rfl⟩

end MsgStats
